import Mathlib

/-!  Verification of the lint and report orchestration scripts.

The JavaScript sources are embedded shallowly: pure string manipulation is
translated to Lean functions on String and List Char, the file system is a
list of existing paths threaded explicitly, and the external collaborators
(the eslint engine, minimatch, the junit-merge utility, the changed-file
diff provider) are oracle parameters.  Fallible code returns Except.
-/

/-- Model of the JavaScript startsWith method: a prefix test on the
character data. -/
def jsStartsWith (s p : String) : Bool := p.data.isPrefixOf s.data

/-- Model of the JavaScript endsWith method: a suffix test on the
character data. -/
def jsEndsWith (s p : String) : Bool := p.data.isSuffixOf s.data

/-- Model of the JavaScript replace method called with a string pattern:
only the first occurrence of pat is replaced by rep; a string without an
occurrence is returned unchanged. -/
def replaceFirstL (pat rep : List Char) : List Char → List Char
  | [] => if pat.isEmpty then rep else []
  | c :: tl =>
    if pat.isPrefixOf (c :: tl) then rep ++ (c :: tl).drop pat.length
    else c :: replaceFirstL pat rep tl

/-- String wrapper for `replaceFirstL`. -/
def jsReplaceFirst (s pat rep : String) : String :=
  String.mk (replaceFirstL pat.data rep.data s.data)

/-- Number of positions of a character list at which pat occurs
(overlapping occurrences are all counted). -/
def countOcc (pat : List Char) : List Char → Nat
  | [] => 0
  | c :: tl => (if pat.isPrefixOf (c :: tl) then 1 else 0) + countOcc pat tl

/-- Boolean substring test: does pat occur somewhere in the list. -/
def hasSub (pat : List Char) : List Char → Bool
  | [] => pat.isEmpty
  | c :: tl => pat.isPrefixOf (c :: tl) || hasSub pat tl

/-- Model of the JavaScript split method at a single-character separator. -/
def splitOnCharL (sep : Char) : List Char → List (List Char)
  | [] => [[]]
  | c :: tl =>
    if c = sep then [] :: splitOnCharL sep tl
    else
      match splitOnCharL sep tl with
      | [] => [[c]]
      | h :: t => (c :: h) :: t

/-- ASCII model of the JavaScript toUpperCase on one character. -/
def jsCharUpper (c : Char) : Char :=
  if 97 ≤ c.toNat ∧ c.toNat ≤ 122 then Char.ofNat (c.toNat - 32) else c

/-- ASCII model of the JavaScript toUpperCase method. -/
def jsToUpperCase (s : String) : String := String.mk (s.data.map jsCharUpper)

/-- Model of the JavaScript idiom spreading a Set built from an array:
deduplication keeping the first occurrence of every element. -/
def jsSetDedup : List String → List String
  | [] => []
  | x :: tl => x :: jsSetDedup (tl.filter (fun y => y ≠ x))
  termination_by l => l.length
  decreasing_by
    simp only [List.length_cons]
    exact Nat.lt_succ_of_le (List.length_filter_le _ _)

/-- Environment variables read by the reporting module. -/
structure Env where
  REPORT_FORMATTER : Option String
  REPORT_DIR : String

/-- Source `isJUnitEnabled` from reporting.js: the report formatter
environment variable must hold exactly the string junit. -/
def isJUnitEnabled (env : Env) : Bool := env.REPORT_FORMATTER == some "junit"

/-- Source `reportFilePath` from reporting.js. -/
def reportFilePath (env : Env) (buildStep : String) : String :=
  env.REPORT_DIR ++ "/" ++ buildStep ++ "-results.xml"

/-- A directory tree modelled as the list of existing directories, each a
list of path segments; the root is the empty segment list and always
exists.  This models the path strings handled by the external path
utility, whose dirname drops the last segment. -/
abbrev DirFS := List (List String)

/-- Model of fs.mkdirSync: fails when the directory already exists. -/
def mkdirSync (fs : DirFS) (d : List String) : Except String DirFS :=
  if d ∈ fs then .error "EEXIST" else .ok (d :: fs)

/-- Source `createDirectoriesIfMissing` from reporting.js: if the dirname
of the given path exists (the root always does) return, otherwise recurse
on the dirname and then create it. -/
def createDirectoriesIfMissing (fs : DirFS) (filePath : List String) :
    Except String DirFS :=
  if h : filePath.dropLast = [] ∨ filePath.dropLast ∈ fs then .ok fs
  else do
    let fs1 ← createDirectoriesIfMissing fs filePath.dropLast
    mkdirSync fs1 filePath.dropLast
  termination_by filePath.length
  decreasing_by
    rcases filePath with _ | ⟨a, tl⟩
    · simp at h
    · simp only [List.length_dropLast, List.length_cons]
      omega

/-- Source `buildXMLOutputAsSingleTest` from reporting.js, with the exact
template-literal text. -/
def buildXMLOutputAsSingleTest (data packageName : String) (hasPassed : Bool) :
    String :=
  let nbrErrors : Nat := if hasPassed then 0 else 1
  let detailedMessage : String :=
    if hasPassed then ""
    else "\n      <failure message=\"\"><![CDATA[\n" ++ data ++
      "\n      ]]>\n      </failure>\n  "
  let testSuite : String :=
    "\n    <testsuite package=\"" ++ packageName ++
      "\" time=\"0\" tests=\"1\" errors=\"" ++ toString nbrErrors ++
      "\" name=\"" ++ jsToUpperCase packageName ++
      "\">\n      <testcase time=\"0\" name=\"" ++ packageName ++
      " merged report\">\n" ++ detailedMessage ++
      "\n      </testcase>\n    </testsuite>\n  "
  "<?xml version=\"1.0\"?>\n  <testsuites>\n    " ++ testSuite ++
    "\n  </testsuites>\n  "

/-- Source `getPartialJUnitReportFileName` from reporting.js: throwing is
modelled by Except.error. -/
def getPartialJUnitReportFileName (baseFileName : String) (index : Nat) :
    Except String String :=
  if jsEndsWith baseFileName ".xml" then
    .ok (jsReplaceFirst baseFileName ".xml" (toString index ++ ".xml"))
  else
    .error "Invalid XML file name provided"

/-- A flat file system modelled as the list of existing file paths. -/
abbrev FileFS := List String

/-- Model of the deletion loop of `mergePartialJunitReports`: each file is
removed with fs.unlinkSync inside a try block, so a file that is absent is
simply logged and the loop continues. -/
def deleteReportFiles (fs : FileFS) (reportFileNames : List String) : FileFS :=
  reportFileNames.foldl (fun acc f => acc.filter (fun g => g ≠ f)) fs

/-- Error message thrown by `mergePartialJunitReports` when the external
junit-merge utility fails. -/
def mergeErrorMessage (env : Env) (buildStep : String) : String :=
  "could not create for the step " ++ buildStep ++
    " the JUnit merged report file " ++ reportFilePath env buildStep

/-- Source `mergePartialJunitReports` from reporting.js.  The external
junit-merge child process is an oracle: mergeOk tells whether it exits
successfully, in which case it writes the merged file at the canonical
report path; on failure it writes nothing and the function rethrows a
descriptive error before any deletion happens.  The first component is
the thrown error (if any), the second the resulting file system. -/
def mergePartialJunitReports (env : Env) (mergeOk : Bool) (buildStep : String)
    (reportFileNames : List String) (fs : FileFS) :
    Except String Unit × FileFS :=
  if ¬ isJUnitEnabled env then (.ok (), fs)
  else if mergeOk then
    let fs1 :=
      if reportFilePath env buildStep ∈ fs then fs
      else reportFilePath env buildStep :: fs
    (.ok (), deleteReportFiles fs1 reportFileNames)
  else (.error (mergeErrorMessage env buildStep), fs)

/-- Formatter configuration resolved from the process arguments. -/
structure FormatterConfig where
  name : String
  outputFile : String
deriving DecidableEq, Repr

/-- Source constant DEFAULT_FORMATTER_NAME. -/
def DEFAULT_FORMATTER_NAME : String := "stylish"

/-- Source constant FORMATTER_FLAG. -/
def FORMATTER_FLAG : String := "--formatter="

/-- Source constant OUTPUT_FLAG. -/
def OUTPUT_FLAG : String := "--output="

/-- Loop body of `getFormatterConfigFromProcessArgs`: a formatter flag
overwrites the name and an output flag overwrites the output file. -/
def updateConfigFromArg (config : FormatterConfig) (arg : String) :
    FormatterConfig :=
  let config :=
    if jsStartsWith arg FORMATTER_FLAG then
      { config with name := jsReplaceFirst arg FORMATTER_FLAG "" }
    else config
  if jsStartsWith arg OUTPUT_FLAG then
    { config with outputFile := jsReplaceFirst arg OUTPUT_FLAG "" }
  else config

/-- Source `getFormatterConfigFromProcessArgs` from eslint.utils: scan the
tokens left to right applying `updateConfigFromArg`. -/
def getFormatterConfigFromProcessArgs (processArgs : List String) :
    FormatterConfig :=
  processArgs.foldl updateConfigFromArg
    { name := DEFAULT_FORMATTER_NAME, outputFile := "" }

/-- One eslint message of a per-file result entry. -/
structure LintMessage where
  message : String
deriving DecidableEq, Repr

/-- One per-file entry of an eslint report. -/
structure ResultItem where
  messages : List LintMessage
deriving DecidableEq, Repr

/-- The raw report produced by the eslint engine. -/
structure Report where
  results : List ResultItem
  errorCount : Int
  warningCount : Int
deriving DecidableEq, Repr

/-- The value returned by `runESLintOnFilesWithOptions`. -/
structure ESLintResult where
  output : String
  errorCount : Int
  warningCount : Int
deriving DecidableEq, Repr

/-- Options handed to the eslint engine constructor. -/
structure LintOptions where
  configFile : String
  ignorePattern : List String
deriving DecidableEq, Repr

/-- The well-known informational message suppressed on incremental runs. -/
def ignoreMessage : String :=
  "File ignored because of a matching ignore pattern. Use \"--no-ignore\" to override."

/-- Test of the source filter: the entry is dropped when its first message
is exactly the well-known ignore message (the JavaScript truthiness test of
messages[0] is a head? match). -/
def itemFirstIsIgnore (item : ResultItem) : Bool :=
  match item.messages.head? with
  | some m => m.message == ignoreMessage
  | none => false

/-- Source `intersect`: for each pattern take the members of files matched
by minimatch (an oracle standing for minimatch with matchBase enabled),
concatenate, then deduplicate through a Set. -/
def intersect (mtch : String → String → Bool) (files : List String)
    (patterns : List String) : List String :=
  jsSetDedup
    (patterns.foldl
      (fun intersection pattern =>
        intersection ++ files.filter (fun f => mtch pattern f))
      [])

/-- Source `runESLintOnFilesWithOptions`.  The eslint engine built from
the options is the oracle engineExecute, the formatter lookup is the
oracle getFormatterByName, the memoized changed-file list is passed as a
value.  A missing formatter throws; the raw report is filtered as in the
source and the warning count lowered by the number of dropped entries. -/
def runESLintOnFilesWithOptions
    (getFormatterByName : String → Option (List ResultItem → String))
    (formatterConfig : FormatterConfig)
    (engineExecute : List String → Report)
    (mtch : String → String → Bool)
    (changedFiles : List String)
    (filePatterns : List String) (onlyChanged : Bool) :
    Except String ESLintResult :=
  match getFormatterByName formatterConfig.name with
  | none => .error ("Could not find formatter " ++ formatterConfig.name)
  | some formatter =>
    let finalFilePatterns :=
      if onlyChanged then intersect mtch changedFiles filePatterns
      else filePatterns
    let report := engineExecute finalFilePatterns
    let messages := report.results.filter (fun item =>
      if !onlyChanged then true else !(itemFirstIsIgnore item))
    let ignoredMessageCount : Int :=
      (report.results.length : Int) - (messages.length : Int)
    .ok { output := formatter messages,
          errorCount := report.errorCount,
          warningCount := report.warningCount - ignoredMessageCount }

/-- Source constant allPaths. -/
def allPaths : List String := ["**/*.js"]

/-- Source `runESLint` (first variant): three dialect buckets in a fixed
sequence, the default bucket ignoring the es5 and esNext path sets, then
the counts are summed and the overall flag demands zero errors and zero
warnings.  The engine oracle receives the per-bucket options. -/
def runESLint
    (getFormatterByName : String → Option (List ResultItem → String))
    (formatterConfig : FormatterConfig)
    (engine : LintOptions → List String → Report)
    (mtch : String → String → Bool)
    (changedFiles : List String)
    (es5Paths esNextPaths : List String)
    (dirname : String)
    (onlyChanged : Bool) : Except String (Bool × String) := do
  let r1 ← runESLintOnFilesWithOptions getFormatterByName formatterConfig
    (engine { configFile := dirname ++ "/eslintrc.default.js",
              ignorePattern := es5Paths ++ esNextPaths })
    mtch changedFiles allPaths onlyChanged
  let r2 ← runESLintOnFilesWithOptions getFormatterByName formatterConfig
    (engine { configFile := dirname ++ "/eslintrc.esnext.js",
              ignorePattern := [] })
    mtch changedFiles esNextPaths onlyChanged
  let r3 ← runESLintOnFilesWithOptions getFormatterByName formatterConfig
    (engine { configFile := dirname ++ "/eslintrc.es5.js",
              ignorePattern := [] })
    mtch changedFiles es5Paths onlyChanged
  let errorCount := r1.errorCount + r2.errorCount + r3.errorCount
  let warningCount := r1.warningCount + r2.warningCount + r3.warningCount
  let output := r1.output ++ r2.output ++ r3.output
  pure (errorCount == 0 && warningCount == 0, output)

/-- Source `getFileNameWithIndex` from the multi-file lint variant: split
at every dot, splice the index and a dot string in at position one, then
join with the empty separator. -/
def getFileNameWithIndex (fileName : String) (index : Nat) : String :=
  let splitted := splitOnCharL '.' fileName.data
  let spliced :=
    splitted.take 1 ++ [(toString index).data, ['.']] ++ splitted.drop 1
  String.mk spliced.flatten

/-- A list is a Boolean prefix of itself followed by anything. -/
theorem isPrefixOf_append_self (p r : List Char) :
    p.isPrefixOf (p ++ r) = true := by
  induction p with
  | nil => simp [List.isPrefixOf]
  | cons a as ih => simp [List.isPrefixOf, ih]

/-- The Boolean prefix test does not look past the pattern length. -/
theorem isPrefixOf_append_of_le (p m r : List Char) (h : p.length ≤ m.length) :
    p.isPrefixOf (m ++ r) = p.isPrefixOf m := by
  induction p generalizing m with
  | nil => simp [List.isPrefixOf]
  | cons a as ih =>
    cases m with
    | nil => simp at h
    | cons b bs =>
      simp only [List.cons_append, List.isPrefixOf, List.append_eq]
      rw [ih bs (by simpa using h)]

/-- Occurrence counting of a pattern opening with a marker character skips
over a stretch free of that character. -/
theorem countOcc_free (k : Char) (pt g r : List Char)
    (hg : ∀ x ∈ g, x ≠ k) :
    countOcc (k :: pt) (g ++ r) = countOcc (k :: pt) r := by
  induction g with
  | nil => simp
  | cons c g' ih =>
    have hc : c ≠ k := hg c (by simp)
    have hrest : ∀ x ∈ g', x ≠ k := fun x hx => hg x (by simp [hx])
    simp only [List.cons_append, countOcc, List.isPrefixOf]
    have : (k == c) = false := by simp [hc.symm]
    simp [this, ih hrest]

/-- Occurrence counting skips a whole segment when the prefix test fails at
its head and the rest of the segment is free of the marker character. -/
theorem countOcc_skip_seg (k : Char) (pt m r : List Char)
    (h1 : (k :: pt).isPrefixOf m = false)
    (h2 : (k :: pt).length ≤ m.length)
    (h3 : ∀ x ∈ m.drop 1, x ≠ k) :
    countOcc (k :: pt) (m ++ r) = countOcc (k :: pt) r := by
  cases m with
  | nil => simp at h2
  | cons c m' =>
    have hpre := isPrefixOf_append_of_le (k :: pt) (c :: m') r h2
    simp only [List.cons_append, countOcc, List.append_eq] at hpre ⊢
    simp only [hpre, h1, Bool.false_eq_true, if_false, Nat.zero_add]
    exact countOcc_free k pt m' r (by simpa using h3)

/-- Occurrence counting over a segment that is exactly the pattern, whose
tail is free of the marker character, finds one occurrence. -/
theorem countOcc_hit (k : Char) (pt r : List Char)
    (hpt : ∀ x ∈ pt, x ≠ k) :
    countOcc (k :: pt) ((k :: pt) ++ r) = countOcc (k :: pt) r + 1 := by
  have h1 : (k :: pt).isPrefixOf ((k :: pt) ++ r) = true :=
    isPrefixOf_append_self (k :: pt) r
  simp only [List.cons_append, countOcc, List.append_eq] at h1 ⊢
  simp only [h1, if_true, countOcc_free k pt pt r hpt]
  exact Nat.add_comm 1 _

/-- Uppercasing a character other than the markup opener never produces
the markup opener. -/
theorem jsCharUpper_ne_lt (c : Char) (hc : c ≠ '<') : jsCharUpper c ≠ '<' := by
  unfold jsCharUpper
  split
  · rename_i h
    obtain ⟨h1, h2⟩ := h
    generalize hgen : c.toNat = n at h1 h2
    interval_cases n <;> decide
  · exact hc

/-- Uppercasing a string free of the markup opener keeps it free of the
markup opener. -/
theorem jsToUpperCase_ne_lt (pkg : String) (hp : ∀ c ∈ pkg.data, c ≠ '<') :
    ∀ c ∈ (jsToUpperCase pkg).data, c ≠ '<' := by
  intro c hc
  simp only [jsToUpperCase] at hc
  obtain ⟨a, ha, rfl⟩ := List.mem_map.mp hc
  exact jsCharUpper_ne_lt a (hp a ha)

set_option maxRecDepth 4096 in
/-- Character data of the passing report, cut into segments at every
markup opener and at every interpolation hole. -/
theorem buildTrue_data (data pkg : String) :
    (buildXMLOutputAsSingleTest data pkg true).data =
      "<?xml version=\"1.0\"?>\n  ".data ++
      ("<testsuites>\n    ".data ++
      ("\n    ".data ++
      ("<testsuite package=\"".data ++
      (pkg.data ++
      ("\" time=\"0\" tests=\"1\" errors=\"".data ++
      ("0".data ++
      ("\" name=\"".data ++
      ((jsToUpperCase pkg).data ++
      ("\">\n      ".data ++
      ("<testcase time=\"0\" name=\"".data ++
      (pkg.data ++
      (" merged report\">\n".data ++
      ("\n      ".data ++
      ("</testcase>\n    ".data ++
      ("</testsuite>\n  ".data ++
      ("\n  ".data ++
      "</testsuites>\n  ".data)))))))))))))))) := by
  have h0 : (toString (0 : Nat)) = "0" := rfl
  have he : ("" : String).data = [] := rfl
  simp only [buildXMLOutputAsSingleTest, if_true, h0, String.data_append, he,
    List.append_nil, List.nil_append, List.append_assoc, List.cons_append]

/-- A pattern that is a Boolean prefix occurs as a substring. -/
theorem hasSub_of_isPrefixOf (p l : List Char) (h : p.isPrefixOf l = true) :
    hasSub p l = true := by
  cases l with
  | nil =>
    cases p with
    | nil => rfl
    | cons a as => simp [List.isPrefixOf] at h
  | cons c tl => simp [hasSub, h]

/-- Substring occurrence is preserved by prepending a segment. -/
theorem hasSub_append_right (p g r : List Char) (h : hasSub p r = true) :
    hasSub p (g ++ r) = true := by
  induction g with
  | nil => simpa using h
  | cons c g' ih =>
    simp only [List.cons_append, hasSub, Bool.or_eq_true]
    exact Or.inr ih

/-- A pattern occurs in itself followed by anything. -/
theorem hasSub_self_append (p r : List Char) : hasSub p (p ++ r) = true := by
  cases p with
  | nil => cases r <;> simp [hasSub]
  | cons a as =>
    exact hasSub_of_isPrefixOf _ _ (isPrefixOf_append_self (a :: as) r)

set_option maxRecDepth 4096 in
/-- Character data of the failing report, cut into segments at every
markup opener and at every interpolation hole, with the CDATA wrap of the
raw data isolated. -/
theorem buildFalse_data (data pkg : String) :
    (buildXMLOutputAsSingleTest data pkg false).data =
      "<?xml version=\"1.0\"?>\n  ".data ++
      ("<testsuites>\n    ".data ++
      ("\n    ".data ++
      ("<testsuite package=\"".data ++
      (pkg.data ++
      ("\" time=\"0\" tests=\"1\" errors=\"".data ++
      ("1".data ++
      ("\" name=\"".data ++
      ((jsToUpperCase pkg).data ++
      ("\">\n      ".data ++
      ("<testcase time=\"0\" name=\"".data ++
      (pkg.data ++
      (" merged report\">\n".data ++
      ("\n      ".data ++
      ("<failure message=\"\">".data ++
      ("<![CDATA[\n".data ++
      (data.data ++
      ("\n      ]]>".data ++
      ("\n      </failure>\n  ".data ++
      ("\n      ".data ++
      ("</testcase>\n    ".data ++
      ("</testsuite>\n  ".data ++
      ("\n  ".data ++
      "</testsuites>\n  ".data)))))))))))))))))))))) := by
  have h1 : (toString (1 : Nat)) = "1" := rfl
  simp only [buildXMLOutputAsSingleTest, if_true, if_false, Bool.false_eq_true,
    h1, String.data_append, List.append_nil, List.nil_append,
    List.append_assoc, List.cons_append]

/-- The passing report opens exactly one testsuite element (package names free of the markup opener). -/
theorem countOcc_ts_buildTrue (data pkg : String) (hp : ∀ c ∈ pkg.data, c ≠ '<') :
    countOcc ("<testsuite " : String).data
      (buildXMLOutputAsSingleTest data pkg true).data = 1 := by
  have hU := jsToUpperCase_ne_lt pkg hp
  rw [buildTrue_data,
    show ("<testsuite " : String).data = '<' :: ("testsuite " : String).data from by decide,
    countOcc_skip_seg '<' ("testsuite " : String).data ("<?xml version=\"1.0\"?>\n  " : String).data _ (by decide) (by decide) (by decide),
    countOcc_skip_seg '<' ("testsuite " : String).data ("<testsuites>\n    " : String).data _ (by decide) (by decide) (by decide),
    countOcc_free '<' ("testsuite " : String).data ("\n    " : String).data _ (by decide),
    show ("<testsuite package=\"" : String).data = ('<' :: ("testsuite " : String).data) ++ ("package=\"" : String).data from by decide,
    List.append_assoc,
    countOcc_hit '<' ("testsuite " : String).data _ (by decide),
    countOcc_free '<' ("testsuite " : String).data ("package=\"" : String).data _ (by decide),
    countOcc_free '<' ("testsuite " : String).data pkg.data _ hp,
    countOcc_free '<' ("testsuite " : String).data ("\" time=\"0\" tests=\"1\" errors=\"" : String).data _ (by decide),
    countOcc_free '<' ("testsuite " : String).data ("0" : String).data _ (by decide),
    countOcc_free '<' ("testsuite " : String).data ("\" name=\"" : String).data _ (by decide),
    countOcc_free '<' ("testsuite " : String).data (jsToUpperCase pkg).data _ hU,
    countOcc_free '<' ("testsuite " : String).data ("\">\n      " : String).data _ (by decide),
    countOcc_skip_seg '<' ("testsuite " : String).data ("<testcase time=\"0\" name=\"" : String).data _ (by decide) (by decide) (by decide),
    countOcc_free '<' ("testsuite " : String).data pkg.data _ hp,
    countOcc_free '<' ("testsuite " : String).data (" merged report\">\n" : String).data _ (by decide),
    countOcc_free '<' ("testsuite " : String).data ("\n      " : String).data _ (by decide),
    countOcc_skip_seg '<' ("testsuite " : String).data ("</testcase>\n    " : String).data _ (by decide) (by decide) (by decide),
    countOcc_skip_seg '<' ("testsuite " : String).data ("</testsuite>\n  " : String).data _ (by decide) (by decide) (by decide),
    countOcc_free '<' ("testsuite " : String).data ("\n  " : String).data _ (by decide),
    show countOcc ('<' :: ("testsuite " : String).data) ("</testsuites>\n  " : String).data = 0 from by decide]

/-- The passing report opens exactly one testcase element (package names free of the markup opener). -/
theorem countOcc_tc_buildTrue (data pkg : String) (hp : ∀ c ∈ pkg.data, c ≠ '<') :
    countOcc ("<testcase " : String).data
      (buildXMLOutputAsSingleTest data pkg true).data = 1 := by
  have hU := jsToUpperCase_ne_lt pkg hp
  rw [buildTrue_data,
    show ("<testcase " : String).data = '<' :: ("testcase " : String).data from by decide,
    countOcc_skip_seg '<' ("testcase " : String).data ("<?xml version=\"1.0\"?>\n  " : String).data _ (by decide) (by decide) (by decide),
    countOcc_skip_seg '<' ("testcase " : String).data ("<testsuites>\n    " : String).data _ (by decide) (by decide) (by decide),
    countOcc_free '<' ("testcase " : String).data ("\n    " : String).data _ (by decide),
    countOcc_skip_seg '<' ("testcase " : String).data ("<testsuite package=\"" : String).data _ (by decide) (by decide) (by decide),
    countOcc_free '<' ("testcase " : String).data pkg.data _ hp,
    countOcc_free '<' ("testcase " : String).data ("\" time=\"0\" tests=\"1\" errors=\"" : String).data _ (by decide),
    countOcc_free '<' ("testcase " : String).data ("0" : String).data _ (by decide),
    countOcc_free '<' ("testcase " : String).data ("\" name=\"" : String).data _ (by decide),
    countOcc_free '<' ("testcase " : String).data (jsToUpperCase pkg).data _ hU,
    countOcc_free '<' ("testcase " : String).data ("\">\n      " : String).data _ (by decide),
    show ("<testcase time=\"0\" name=\"" : String).data = ('<' :: ("testcase " : String).data) ++ ("time=\"0\" name=\"" : String).data from by decide,
    List.append_assoc,
    countOcc_hit '<' ("testcase " : String).data _ (by decide),
    countOcc_free '<' ("testcase " : String).data ("time=\"0\" name=\"" : String).data _ (by decide),
    countOcc_free '<' ("testcase " : String).data pkg.data _ hp,
    countOcc_free '<' ("testcase " : String).data (" merged report\">\n" : String).data _ (by decide),
    countOcc_free '<' ("testcase " : String).data ("\n      " : String).data _ (by decide),
    countOcc_skip_seg '<' ("testcase " : String).data ("</testcase>\n    " : String).data _ (by decide) (by decide) (by decide),
    countOcc_skip_seg '<' ("testcase " : String).data ("</testsuite>\n  " : String).data _ (by decide) (by decide) (by decide),
    countOcc_free '<' ("testcase " : String).data ("\n  " : String).data _ (by decide),
    show countOcc ('<' :: ("testcase " : String).data) ("</testsuites>\n  " : String).data = 0 from by decide]

/-- The passing report contains no failure element (package names free of the markup opener). -/
theorem countOcc_fl_buildTrue (data pkg : String) (hp : ∀ c ∈ pkg.data, c ≠ '<') :
    countOcc ("<failure" : String).data
      (buildXMLOutputAsSingleTest data pkg true).data = 0 := by
  have hU := jsToUpperCase_ne_lt pkg hp
  rw [buildTrue_data,
    show ("<failure" : String).data = '<' :: ("failure" : String).data from by decide,
    countOcc_skip_seg '<' ("failure" : String).data ("<?xml version=\"1.0\"?>\n  " : String).data _ (by decide) (by decide) (by decide),
    countOcc_skip_seg '<' ("failure" : String).data ("<testsuites>\n    " : String).data _ (by decide) (by decide) (by decide),
    countOcc_free '<' ("failure" : String).data ("\n    " : String).data _ (by decide),
    countOcc_skip_seg '<' ("failure" : String).data ("<testsuite package=\"" : String).data _ (by decide) (by decide) (by decide),
    countOcc_free '<' ("failure" : String).data pkg.data _ hp,
    countOcc_free '<' ("failure" : String).data ("\" time=\"0\" tests=\"1\" errors=\"" : String).data _ (by decide),
    countOcc_free '<' ("failure" : String).data ("0" : String).data _ (by decide),
    countOcc_free '<' ("failure" : String).data ("\" name=\"" : String).data _ (by decide),
    countOcc_free '<' ("failure" : String).data (jsToUpperCase pkg).data _ hU,
    countOcc_free '<' ("failure" : String).data ("\">\n      " : String).data _ (by decide),
    countOcc_skip_seg '<' ("failure" : String).data ("<testcase time=\"0\" name=\"" : String).data _ (by decide) (by decide) (by decide),
    countOcc_free '<' ("failure" : String).data pkg.data _ hp,
    countOcc_free '<' ("failure" : String).data (" merged report\">\n" : String).data _ (by decide),
    countOcc_free '<' ("failure" : String).data ("\n      " : String).data _ (by decide),
    countOcc_skip_seg '<' ("failure" : String).data ("</testcase>\n    " : String).data _ (by decide) (by decide) (by decide),
    countOcc_skip_seg '<' ("failure" : String).data ("</testsuite>\n  " : String).data _ (by decide) (by decide) (by decide),
    countOcc_free '<' ("failure" : String).data ("\n  " : String).data _ (by decide),
    show countOcc ('<' :: ("failure" : String).data) ("</testsuites>\n  " : String).data = 0 from by decide]

/-- Merging three adjacent segments of a right-nested append chain. -/
theorem merge3 (a b c m X : List Char) (h : a ++ (b ++ c) = m) :
    a ++ (b ++ (c ++ X)) = m ++ X := by
  subst h
  simp [List.append_assoc]

/-- The passing report carries the tests and errors attributes with values
one and zero. -/
theorem hasSub_attrs_buildTrue (data pkg : String) :
    hasSub ("tests=\"1\" errors=\"0\"" : String).data
      (buildXMLOutputAsSingleTest data pkg true).data = true := by
  rw [buildTrue_data,
    show ("\" time=\"0\" tests=\"1\" errors=\"" : String).data =
      ("\" time=\"0\" " : String).data ++
        ("tests=\"1\" errors=\"" : String).data from by decide,
    show ("\" name=\"" : String).data =
      ("\"" : String).data ++ (" name=\"" : String).data from by decide]
  simp only [List.append_assoc]
  apply hasSub_append_right
  apply hasSub_append_right
  apply hasSub_append_right
  apply hasSub_append_right
  apply hasSub_append_right
  apply hasSub_append_right
  rw [merge3 ("tests=\"1\" errors=\"" : String).data ("0" : String).data
    ("\"" : String).data ("tests=\"1\" errors=\"0\"" : String).data _
    (by decide)]
  exact hasSub_self_append _ _

/-- The failing report carries the errors attribute with value one. -/
theorem hasSub_errors_buildFalse (data pkg : String) :
    hasSub ("errors=\"1\"" : String).data
      (buildXMLOutputAsSingleTest data pkg false).data = true := by
  rw [buildFalse_data,
    show ("\" time=\"0\" tests=\"1\" errors=\"" : String).data =
      ("\" time=\"0\" tests=\"1\" " : String).data ++
        ("errors=\"" : String).data from by decide,
    show ("\" name=\"" : String).data =
      ("\"" : String).data ++ (" name=\"" : String).data from by decide]
  simp only [List.append_assoc]
  apply hasSub_append_right
  apply hasSub_append_right
  apply hasSub_append_right
  apply hasSub_append_right
  apply hasSub_append_right
  apply hasSub_append_right
  rw [merge3 ("errors=\"" : String).data ("1" : String).data
    ("\"" : String).data ("errors=\"1\"" : String).data _ (by decide)]
  exact hasSub_self_append _ _

/-- The failing report carries a failure element. -/
theorem hasSub_failure_buildFalse (data pkg : String) :
    hasSub ("<failure" : String).data
      (buildXMLOutputAsSingleTest data pkg false).data = true := by
  rw [buildFalse_data]
  apply hasSub_append_right
  apply hasSub_append_right
  apply hasSub_append_right
  apply hasSub_append_right
  apply hasSub_append_right
  apply hasSub_append_right
  apply hasSub_append_right
  apply hasSub_append_right
  apply hasSub_append_right
  apply hasSub_append_right
  apply hasSub_append_right
  apply hasSub_append_right
  apply hasSub_append_right
  apply hasSub_append_right
  apply hasSub_of_isPrefixOf
  rw [isPrefixOf_append_of_le _ _ _ (by decide)]
  decide

/-- The failing report wraps the raw data verbatim in a CDATA block. -/
theorem cdata_wrap_buildFalse (data pkg : String) :
    ∃ u v, (buildXMLOutputAsSingleTest data pkg false).data =
      u ++ (("<![CDATA[\n" : String).data ++
        (data.data ++ (("\n      ]]>" : String).data ++ v))) := by
  rw [buildFalse_data]
  refine ⟨("<?xml version=\"1.0\"?>\n  " : String).data ++
    (("<testsuites>\n    " : String).data ++
    (("\n    " : String).data ++
    (("<testsuite package=\"" : String).data ++
    (pkg.data ++
    (("\" time=\"0\" tests=\"1\" errors=\"" : String).data ++
    (("1" : String).data ++
    (("\" name=\"" : String).data ++
    ((jsToUpperCase pkg).data ++
    (("\">\n      " : String).data ++
    (("<testcase time=\"0\" name=\"" : String).data ++
    (pkg.data ++
    ((" merged report\">\n" : String).data ++
    (("\n      " : String).data ++
    ("<failure message=\"\">" : String).data))))))))))))),
    ("\n      </failure>\n  " : String).data ++
    (("\n      " : String).data ++
    (("</testcase>\n    " : String).data ++
    (("</testsuite>\n  " : String).data ++
    (("\n  " : String).data ++
    ("</testsuites>\n  " : String).data)))), ?_⟩
  simp only [List.append_assoc]

/-- Claim C1 (amended): for every data string and every package name free
of the markup-opening character, buildXMLOutputAsSingleTest with a passing
flag yields a report opening exactly one testsuite, carrying tests one and
errors zero, opening exactly one testcase and containing no failure
element; and for every data string and package name, the failing report
carries errors one, a failure element, and a CDATA block wrapping the data
string verbatim. -/
theorem c1_single_test_report (data pkg : String)
    (hp : ∀ c ∈ pkg.data, c ≠ '<') :
    countOcc ("<testsuite " : String).data
      (buildXMLOutputAsSingleTest data pkg true).data = 1 ∧
    hasSub ("tests=\"1\" errors=\"0\"" : String).data
      (buildXMLOutputAsSingleTest data pkg true).data = true ∧
    countOcc ("<testcase " : String).data
      (buildXMLOutputAsSingleTest data pkg true).data = 1 ∧
    countOcc ("<failure" : String).data
      (buildXMLOutputAsSingleTest data pkg true).data = 0 ∧
    hasSub ("errors=\"1\"" : String).data
      (buildXMLOutputAsSingleTest data pkg false).data = true ∧
    hasSub ("<failure" : String).data
      (buildXMLOutputAsSingleTest data pkg false).data = true ∧
    ∃ u v, (buildXMLOutputAsSingleTest data pkg false).data =
      u ++ (("<![CDATA[\n" : String).data ++
        (data.data ++ (("\n      ]]>" : String).data ++ v))) :=
  ⟨countOcc_ts_buildTrue data pkg hp,
   hasSub_attrs_buildTrue data pkg,
   countOcc_tc_buildTrue data pkg hp,
   countOcc_fl_buildTrue data pkg hp,
   hasSub_errors_buildFalse data pkg,
   hasSub_failure_buildFalse data pkg,
   cdata_wrap_buildFalse data pkg⟩

/-- Claim C1 counterexample: the claim quantifies over every package name,
but the passing report built for the package name consisting of a failure
tag contains a failure marker, so the passing report does not always lack
a failure element (nor does it hold exactly one testsuite element). -/
theorem c1_counterexample :
    hasSub ("<failure" : String).data
      (buildXMLOutputAsSingleTest "" "<failure" true).data = true := by decide

/-- Claim C1 witness: the amended statement instantiated at the data
string Hello and the package name flow. -/
theorem c1_single_test_report_witness :
    countOcc ("<testsuite " : String).data
      (buildXMLOutputAsSingleTest "Hello" "flow" true).data = 1 ∧
    hasSub ("tests=\"1\" errors=\"0\"" : String).data
      (buildXMLOutputAsSingleTest "Hello" "flow" true).data = true ∧
    countOcc ("<testcase " : String).data
      (buildXMLOutputAsSingleTest "Hello" "flow" true).data = 1 ∧
    countOcc ("<failure" : String).data
      (buildXMLOutputAsSingleTest "Hello" "flow" true).data = 0 ∧
    hasSub ("errors=\"1\"" : String).data
      (buildXMLOutputAsSingleTest "Hello" "flow" false).data = true ∧
    hasSub ("<failure" : String).data
      (buildXMLOutputAsSingleTest "Hello" "flow" false).data = true ∧
    ∃ u v, (buildXMLOutputAsSingleTest "Hello" "flow" false).data =
      u ++ (("<![CDATA[\n" : String).data ++
        (("Hello" : String).data ++ (("\n      ]]>" : String).data ++ v))) :=
  c1_single_test_report "Hello" "flow" (by decide)

/-- A list is a Boolean suffix of anything followed by itself. -/
theorem isSuffixOf_append_self (s p : List Char) :
    p.isSuffixOf (s ++ p) = true := by
  simp only [List.isSuffixOf, List.reverse_append]
  exact isPrefixOf_append_self _ _

/-- Replacing the first occurrence of the xml extension in a name made of
a stem without that extension followed by the extension rewrites exactly
the trailing extension. -/
theorem replaceFirstL_stem (rep : List Char) (stem : List Char)
    (h : hasSub (".xml" : String).data stem = false) :
    replaceFirstL (".xml" : String).data rep (stem ++ (".xml" : String).data) =
      stem ++ rep := by
  induction stem with
  | nil => simp [replaceFirstL]
  | cons c tl ih =>
    simp only [hasSub, Bool.or_eq_false_iff] at h
    obtain ⟨h1, h2⟩ := h
    have hcond : (".xml" : String).data.isPrefixOf
        ((c :: tl) ++ (".xml" : String).data) = false := by
      rcases tl with _ | ⟨c2, tl2⟩
      · simp [List.isPrefixOf]
      rcases tl2 with _ | ⟨c3, tl3⟩
      · simp [List.isPrefixOf]
      rcases tl3 with _ | ⟨c4, tl4⟩
      · simp [List.isPrefixOf]
      · rw [isPrefixOf_append_of_le _ _ _ (by simp)]
        exact h1
    simp only [List.cons_append] at hcond ⊢
    rw [replaceFirstL, hcond]
    simp only [Bool.false_eq_true, if_false, List.cons.injEq, true_and]
    exact ih h2

/-- On a name made of an extension-free stem followed by the xml
extension, the index lands immediately before the trailing extension. -/
theorem getPartial_stem (stem : String) (i : Nat)
    (hstem : hasSub (".xml" : String).data stem.data = false) :
    getPartialJUnitReportFileName (stem ++ ".xml") i =
      .ok (stem ++ toString i ++ ".xml") := by
  have hends : jsEndsWith (stem ++ ".xml") ".xml" = true := by
    simp only [jsEndsWith, String.data_append]
    exact isSuffixOf_append_self _ _
  unfold getPartialJUnitReportFileName
  rw [hends]
  simp only [if_true]
  refine congrArg Except.ok ?_
  refine String.ext ?_
  show replaceFirstL (".xml" : String).data (toString i ++ ".xml").data
    (stem ++ ".xml").data = (stem ++ toString i ++ ".xml").data
  rw [String.data_append stem ".xml", replaceFirstL_stem _ _ hstem,
    String.data_append, String.data_append]
  simp [List.append_assoc]

/-- Claim C2 (amended): getPartialJUnitReportFileName raises exactly when
the base name does not end in the xml extension; when the name is a stem
without any occurrence of the extension followed by the extension, the
index is inserted immediately before that trailing extension.  In general
the code inserts the index before the first occurrence of the extension,
not the trailing one. -/
theorem c2_report_file_name (name : String) (i : Nat) :
    (getPartialJUnitReportFileName name i =
        .error "Invalid XML file name provided" ↔
      jsEndsWith name ".xml" = false) ∧
    ∀ stem : String, name = stem ++ ".xml" →
      hasSub (".xml" : String).data stem.data = false →
      getPartialJUnitReportFileName name i =
        .ok (stem ++ toString i ++ ".xml") := by
  constructor
  · unfold getPartialJUnitReportFileName
    cases hb : jsEndsWith name ".xml" <;> simp [hb]
  · rintro stem rfl hstem
    exact getPartial_stem stem i hstem

/-- Claim C2 counterexample: the claim says the index goes immediately
before the trailing extension, but on a name holding the extension twice
the code rewrites the first occurrence: the result differs from the
trailing insertion. -/
theorem c2_counterexample :
    "a.xml.xml" = "a.xml" ++ ".xml" ∧
    getPartialJUnitReportFileName "a.xml.xml" 2 = .ok "a2.xml.xml" ∧
    Except.ok "a2.xml.xml" ≠
      (.ok ("a.xml" ++ "2" ++ ".xml") : Except String String) := by
  refine ⟨by decide, by rfl, ?_⟩
  simp only [ne_eq, Except.ok.injEq]
  decide

/-- Claim C2 witness: the amended statement at the base name base.xml and
index two yields base2.xml. -/
theorem c2_report_file_name_witness :
    getPartialJUnitReportFileName "base.xml" 2 = .ok "base2.xml" := by
  have h := (c2_report_file_name "base.xml" 2).2 "base" (by decide) (by decide)
  exact h.trans (congrArg Except.ok (by decide))

/-- Deletion only removes files: membership after the deletion loop
implies membership before. -/
theorem mem_of_mem_deleteReportFiles (names : List String) (fs : FileFS)
    (x : String) (h : x ∈ deleteReportFiles fs names) : x ∈ fs := by
  induction names generalizing fs with
  | nil => exact h
  | cons f tl ih =>
    have h2 := ih _ h
    exact List.mem_of_mem_filter h2

/-- Every file handed to the deletion loop is gone afterwards. -/
theorem not_mem_deleteReportFiles (names : List String) (fs : FileFS)
    (f : String) (hf : f ∈ names) : f ∉ deleteReportFiles fs names := by
  induction names generalizing fs with
  | nil => simp at hf
  | cons g tl ih =>
    rcases List.mem_cons.mp hf with rfl | hmem
    · intro hin
      have := mem_of_mem_deleteReportFiles tl _ f hin
      simp at this
    · exact ih _ hmem

/-- Claim C3: with JUnit mode enabled and a succeeding merge utility, none
of the partial report files listed in reportFileNames exists in the
resulting file system. -/
theorem c3_merge_removes_temp_reports (env : Env) (buildStep : String)
    (reportFileNames : List String) (fs : FileFS) (f : String)
    (henv : isJUnitEnabled env = true) (hf : f ∈ reportFileNames) :
    f ∉ (mergePartialJunitReports env true buildStep reportFileNames fs).2 := by
  unfold mergePartialJunitReports
  simp only [henv, Bool.true_eq_false, not_false_eq_true, not_true,
    if_false, if_true, ite_not]
  intro hin
  exact not_mem_deleteReportFiles reportFileNames _ f hf
    (by simpa using hin)

/-- Claim C3 witness: a concrete merged run with one partial file. -/
theorem c3_merge_removes_temp_reports_witness :
    "reports/flow1.xml" ∉
      (mergePartialJunitReports ⟨some "junit", "reports"⟩ true "flow"
        ["reports/flow1.xml"] ["reports/flow1.xml"]).2 :=
  c3_merge_removes_temp_reports ⟨some "junit", "reports"⟩ "flow"
    ["reports/flow1.xml"] ["reports/flow1.xml"] "reports/flow1.xml"
    (by decide) (by simp)

/-- A pattern occurs in itself. -/
theorem hasSub_self (p : List Char) : hasSub p p = true := by
  have := hasSub_self_append p []
  simpa using this

/-- Claim C4: with JUnit mode enabled and a failing merge utility, the
function throws an error naming the build step and the canonical report
path and the file system is returned unchanged: no partial file is
deleted. -/
theorem c4_merge_failure (env : Env) (buildStep : String)
    (reportFileNames : List String) (fs : FileFS)
    (henv : isJUnitEnabled env = true) :
    mergePartialJunitReports env false buildStep reportFileNames fs =
      (.error (mergeErrorMessage env buildStep), fs) ∧
    hasSub buildStep.data (mergeErrorMessage env buildStep).data = true ∧
    hasSub (reportFilePath env buildStep).data
      (mergeErrorMessage env buildStep).data = true := by
  refine ⟨?_, ?_, ?_⟩
  · unfold mergePartialJunitReports
    simp [henv]
  · simp only [mergeErrorMessage, String.data_append, List.append_assoc]
    apply hasSub_append_right
    exact hasSub_self_append _ _
  · simp only [mergeErrorMessage, String.data_append, List.append_assoc]
    apply hasSub_append_right
    apply hasSub_append_right
    apply hasSub_append_right
    exact hasSub_self _

/-- Claim C4 witness: a concrete failing merge leaves the single partial
file in place and throws the descriptive error. -/
theorem c4_merge_failure_witness :
    mergePartialJunitReports ⟨some "junit", "reports"⟩ false "flow"
        ["reports/flow1.xml"] ["reports/flow1.xml"] =
      (.error (mergeErrorMessage ⟨some "junit", "reports"⟩ "flow"),
        ["reports/flow1.xml"]) ∧
    hasSub ("flow" : String).data
      (mergeErrorMessage ⟨some "junit", "reports"⟩ "flow").data = true ∧
    hasSub (reportFilePath ⟨some "junit", "reports"⟩ "flow").data
      (mergeErrorMessage ⟨some "junit", "reports"⟩ "flow").data = true :=
  c4_merge_failure ⟨some "junit", "reports"⟩ "flow"
    ["reports/flow1.xml"] ["reports/flow1.xml"] (by decide)

/-- A proper Boolean-strict prefix of a list is a prefix of the list
without its last element. -/
theorem prefix_dropLast_of_ne (q d : List String) (hpre : q <+: d)
    (hne : q ≠ d) : q <+: d.dropLast := by
  obtain ⟨t, rfl⟩ := hpre
  cases t with
  | nil => simp at hne
  | cons a t' =>
    rw [List.dropLast_append_of_ne_nil _ (by simp)]
    exact List.prefix_append _ _

/-- Created directories are either preexisting or nonempty prefixes of the
dirname of the requested path. -/
theorem mem_createDirs (n : Nat) : ∀ (p : List String), p.length ≤ n →
    ∀ (fs fs1 : DirFS), createDirectoriesIfMissing fs p = .ok fs1 →
    ∀ x ∈ fs1, x ∈ fs ∨ (x ≠ [] ∧ x <+: p.dropLast) := by
  induction n with
  | zero =>
    intro p hp fs fs1 h x hx
    have hnil : p = [] := List.length_eq_zero.mp (Nat.le_zero.mp hp)
    subst hnil
    unfold createDirectoriesIfMissing at h
    simp only [List.dropLast_nil, true_or, dif_pos] at h
    cases h
    exact Or.inl hx
  | succ n ih =>
    intro p hp fs fs1 h x hx
    unfold createDirectoriesIfMissing at h
    split at h
    · cases h
      exact Or.inl hx
    · rename_i hcond
      cases he : createDirectoriesIfMissing fs p.dropLast with
      | error e =>
        rw [he] at h
        exact absurd (show (Except.error e : Except String DirFS) = .ok fs1 from h)
          (by simp)
      | ok fsm =>
        rw [he] at h
        have h2 : mkdirSync fsm p.dropLast = .ok fs1 := h
        unfold mkdirSync at h2
        split at h2
        · exact absurd h2 (by simp)
        · rename_i hnm
          cases h2
          rcases List.mem_cons.mp hx with rfl | hxm
          · refine Or.inr ⟨fun hq => hcond (Or.inl hq), List.prefix_refl _⟩
          · have hne : p ≠ [] := by
              intro hh
              exact hcond (Or.inl (by simp [hh]))
            have hlen : p.dropLast.length ≤ n := by
              have h1 := List.length_dropLast p
              have h0 : 0 < p.length := List.length_pos.mpr hne
              omega
            rcases ih p.dropLast hlen fs fsm he x hxm with hin | ⟨hxe, hxp⟩
            · exact Or.inl hin
            · exact Or.inr ⟨hxe, hxp.trans (List.dropLast_prefix _)⟩

/-- The directory-creation helper never raises. -/
theorem createDirs_total (n : Nat) : ∀ (p : List String), p.length ≤ n →
    ∀ fs : DirFS, ∃ fs1, createDirectoriesIfMissing fs p = .ok fs1 := by
  induction n with
  | zero =>
    intro p hp fs
    have hnil : p = [] := List.length_eq_zero.mp (Nat.le_zero.mp hp)
    subst hnil
    refine ⟨fs, ?_⟩
    unfold createDirectoriesIfMissing
    simp
  | succ n ih =>
    intro p hp fs
    by_cases hcond : p.dropLast = [] ∨ p.dropLast ∈ fs
    · refine ⟨fs, ?_⟩
      unfold createDirectoriesIfMissing
      rw [dif_pos hcond]
    · have hne : p ≠ [] := by
        intro hh
        exact hcond (Or.inl (by simp [hh]))
      have hlen : p.dropLast.length ≤ n := by
        have h1 := List.length_dropLast p
        have h0 : 0 < p.length := List.length_pos.mpr hne
        omega
      obtain ⟨fsm, hfsm⟩ := ih p.dropLast hlen fs
      have hnm : p.dropLast ∉ fsm := by
        intro hin
        rcases mem_createDirs n p.dropLast hlen fs fsm hfsm _ hin with
          hin2 | ⟨hxe, hxp⟩
        · exact hcond (Or.inr hin2)
        · have hl1 := hxp.length_le
          have h1 := List.length_dropLast p.dropLast
          have h0 : 0 < p.dropLast.length :=
            List.length_pos.mpr (fun hh => hcond (Or.inl hh))
          omega
      refine ⟨p.dropLast :: fsm, ?_⟩
      unfold createDirectoriesIfMissing
      rw [dif_neg hcond, hfsm]
      show mkdirSync fsm p.dropLast = _
      unfold mkdirSync
      rw [if_neg hnm]

/-- After a successful run the dirname of the requested path exists (or is
the root). -/
theorem createDirs_post (p : List String) (fs fs1 : DirFS)
    (h : createDirectoriesIfMissing fs p = .ok fs1) :
    p.dropLast = [] ∨ p.dropLast ∈ fs1 := by
  unfold createDirectoriesIfMissing at h
  split at h
  · rename_i hcond
    cases h
    exact hcond
  · cases he : createDirectoriesIfMissing fs p.dropLast with
    | error e =>
      rw [he] at h
      exact absurd (show (Except.error e : Except String DirFS) = .ok fs1 from h)
        (by simp)
    | ok fsm =>
      rw [he] at h
      have h2 : mkdirSync fsm p.dropLast = .ok fs1 := h
      unfold mkdirSync at h2
      split at h2
      · exact absurd h2 (by simp)
      · cases h2
        exact Or.inr (List.mem_cons_self _ _)

/-- A second run on the same path changes nothing. -/
theorem createDirs_idem (p : List String) (fs fs1 : DirFS)
    (h : createDirectoriesIfMissing fs p = .ok fs1) :
    createDirectoriesIfMissing fs1 p = .ok fs1 := by
  unfold createDirectoriesIfMissing
  rw [dif_pos (createDirs_post p fs fs1 h)]

/-- In a directory tree closed under taking the parent, every nonempty
prefix of a member is a member. -/
theorem wf_prefix_mem (n : Nat) : ∀ (d : List String), d.length ≤ n →
    ∀ fs : DirFS, (∀ e ∈ fs, e.dropLast = [] ∨ e.dropLast ∈ fs) →
    d ∈ fs → ∀ q, q ≠ [] → q <+: d → q ∈ fs := by
  induction n with
  | zero =>
    intro d hd fs hwf hdfs q hq hpre
    have hnil : d = [] := List.length_eq_zero.mp (Nat.le_zero.mp hd)
    subst hnil
    exact absurd (List.prefix_nil.mp hpre) hq
  | succ n ih =>
    intro d hd fs hwf hdfs q hq hpre
    by_cases heq : q = d
    · subst heq
      exact hdfs
    · have hpre2 : q <+: d.dropLast := prefix_dropLast_of_ne q d hpre heq
      have hdne : d ≠ [] := by
        intro hh
        subst hh
        exact hq (List.prefix_nil.mp hpre)
      have hlen : d.dropLast.length ≤ n := by
        have h1 := List.length_dropLast d
        have h0 : 0 < d.length := List.length_pos.mpr hdne
        omega
      rcases hwf d hdfs with hnil | hmem
      · rw [hnil] at hpre2
        exact absurd (List.prefix_nil.mp hpre2) hq
      · exact ih d.dropLast hlen fs hwf hmem q hq hpre2

/-- After a successful run on a parent-closed tree, every nonempty prefix
of the dirname of the requested path exists. -/
theorem createDirs_chain (n : Nat) : ∀ (p : List String), p.length ≤ n →
    ∀ (fs fs1 : DirFS), (∀ e ∈ fs, e.dropLast = [] ∨ e.dropLast ∈ fs) →
    createDirectoriesIfMissing fs p = .ok fs1 →
    ∀ q, q ≠ [] → q <+: p.dropLast → q ∈ fs1 := by
  induction n with
  | zero =>
    intro p hp fs fs1 hwf h q hq hpre
    have hnil : p = [] := List.length_eq_zero.mp (Nat.le_zero.mp hp)
    subst hnil
    simp only [List.dropLast_nil] at hpre
    exact absurd (List.prefix_nil.mp hpre) hq
  | succ n ih =>
    intro p hp fs fs1 hwf h q hq hpre
    unfold createDirectoriesIfMissing at h
    split at h
    · rename_i hcond
      cases h
      rcases hcond with hnil | hmem
      · rw [hnil] at hpre
        exact absurd (List.prefix_nil.mp hpre) hq
      · exact wf_prefix_mem p.dropLast.length p.dropLast le_rfl fs hwf hmem
          q hq hpre
    · rename_i hcond
      cases he : createDirectoriesIfMissing fs p.dropLast with
      | error e =>
        rw [he] at h
        exact absurd (show (Except.error e : Except String DirFS) = .ok fs1 from h)
          (by simp)
      | ok fsm =>
        rw [he] at h
        have h2 : mkdirSync fsm p.dropLast = .ok fs1 := h
        unfold mkdirSync at h2
        split at h2
        · exact absurd h2 (by simp)
        · cases h2
          by_cases heq : q = p.dropLast
          · subst heq
            exact List.mem_cons_self _ _
          · have hne : p ≠ [] := by
              intro hh
              exact hcond (Or.inl (by simp [hh]))
            have hlen : p.dropLast.length ≤ n := by
              have h1 := List.length_dropLast p
              have h0 : 0 < p.length := List.length_pos.mpr hne
              omega
            have hpre2 : q <+: p.dropLast.dropLast :=
              prefix_dropLast_of_ne q p.dropLast hpre heq
            exact List.mem_cons_of_mem _
              (ih p.dropLast hlen fs fsm hwf he q hq hpre2)

/-- Claim C9: on a directory tree closed under taking the parent, the
directory-creation helper never raises, a second call on the same path
returns exactly the tree produced by the first call, and after the first
call every directory on the parent chain of the path exists. -/
theorem c9_create_directories (fs : DirFS) (p : List String)
    (hwf : ∀ e ∈ fs, e.dropLast = [] ∨ e.dropLast ∈ fs) :
    ∃ fs1, createDirectoriesIfMissing fs p = .ok fs1 ∧
      createDirectoriesIfMissing fs1 p = .ok fs1 ∧
      ∀ q, q ≠ [] → q <+: p.dropLast → q ∈ fs1 := by
  obtain ⟨fs1, h1⟩ := createDirs_total p.length p le_rfl fs
  exact ⟨fs1, h1, createDirs_idem p fs fs1 h1,
    createDirs_chain p.length p le_rfl fs fs1 hwf h1⟩

/-- Claim C9 witness: creating the report directory of a nested report
path twice starting from an empty tree. -/
theorem c9_create_directories_witness :
    ∃ fs1, createDirectoriesIfMissing []
        [("reports" : String), ("flow-results.xml" : String)] = .ok fs1 ∧
      createDirectoriesIfMissing fs1
        [("reports" : String), ("flow-results.xml" : String)] = .ok fs1 ∧
      ∀ q, q ≠ [] →
        q <+: [("reports" : String), ("flow-results.xml" : String)].dropLast →
        q ∈ fs1 :=
  c9_create_directories [] [("reports" : String), ("flow-results.xml" : String)]
    (by simp)

/-- Replacing the first occurrence of a pattern that opens the string
drops exactly the pattern. -/
theorem replaceFirstL_of_isPrefixOf (pat rep l : List Char)
    (h : pat.isPrefixOf l = true) :
    replaceFirstL pat rep l = rep ++ l.drop pat.length := by
  cases l with
  | nil =>
    cases pat with
    | nil => simp [replaceFirstL]
    | cons a as => simp [List.isPrefixOf] at h
  | cons c tl =>
    rw [replaceFirstL, if_pos h]

/-- The value kept for one flag by the scan: the suffix of the last token
opening with the flag, or the fallback. -/
def lastFlagValue (flagStr dflt : String) (args : List String) : String :=
  match (args.filter fun a => jsStartsWith a flagStr).getLast? with
  | some a => String.mk (a.data.drop flagStr.data.length)
  | none => dflt

/-- The scan computes, from any starting configuration, the last-wins
value of each of the two flags independently. -/
theorem config_foldl_general (args : List String) (c : FormatterConfig) :
    args.foldl updateConfigFromArg c =
      { name := lastFlagValue FORMATTER_FLAG c.name args,
        outputFile := lastFlagValue OUTPUT_FLAG c.outputFile args } := by
  induction args using List.reverseRecOn with
  | nil => rfl
  | append_singleton as a ih =>
    rw [List.foldl_append]
    simp only [List.foldl_cons, List.foldl_nil]
    rw [ih]
    unfold updateConfigFromArg lastFlagValue
    simp only [List.filter_append]
    by_cases hf : jsStartsWith a FORMATTER_FLAG
    · have hreplf : jsReplaceFirst a FORMATTER_FLAG "" =
          String.mk (a.data.drop FORMATTER_FLAG.data.length) := by
        unfold jsReplaceFirst
        rw [replaceFirstL_of_isPrefixOf _ _ _ hf]
        rfl
      by_cases ho : jsStartsWith a OUTPUT_FLAG
      · have hreplo : jsReplaceFirst a OUTPUT_FLAG "" =
            String.mk (a.data.drop OUTPUT_FLAG.data.length) := by
          unfold jsReplaceFirst
          rw [replaceFirstL_of_isPrefixOf _ _ _ ho]
          rfl
        simp [hf, ho, List.getLast?_concat, hreplf, hreplo]
      · simp [hf, ho, List.getLast?_concat, hreplf]
    · by_cases ho : jsStartsWith a OUTPUT_FLAG
      · have hreplo : jsReplaceFirst a OUTPUT_FLAG "" =
            String.mk (a.data.drop OUTPUT_FLAG.data.length) := by
          unfold jsReplaceFirst
          rw [replaceFirstL_of_isPrefixOf _ _ _ ho]
          rfl
        simp [hf, ho, List.getLast?_concat, hreplo]
      · simp [hf, ho]

/-- Claim C6: the resolved configuration takes its name from the suffix of
the last formatter flag (stylish when absent) and its output file from the
suffix of the last output flag (empty when absent); other tokens are
ignored and the result depends only on the token list. -/
theorem c6_formatter_config (processArgs : List String) :
    getFormatterConfigFromProcessArgs processArgs =
      { name := lastFlagValue FORMATTER_FLAG "stylish" processArgs,
        outputFile := lastFlagValue OUTPUT_FLAG "" processArgs } := by
  unfold getFormatterConfigFromProcessArgs
  rw [config_foldl_general]
  rfl

/-- Claim C6 witness: the characterization at a token list exercising the
default, the last-wins overwrite and an unrelated token. -/
theorem c6_formatter_config_witness :
    getFormatterConfigFromProcessArgs
        ["Hi", "--formatter=codeframe", "--output=some/path/result.xml",
          "--formatter=junit"] =
      { name := lastFlagValue FORMATTER_FLAG "stylish"
          ["Hi", "--formatter=codeframe", "--output=some/path/result.xml",
            "--formatter=junit"],
        outputFile := lastFlagValue OUTPUT_FLAG ""
          ["Hi", "--formatter=codeframe", "--output=some/path/result.xml",
            "--formatter=junit"] } :=
  c6_formatter_config _

/-- Entries kept plus entries suppressed add up to the whole report. -/
theorem countP_not_add_countP (p : ResultItem → Bool) (l : List ResultItem) :
    l.countP (fun a => !(p a)) + l.countP p = l.length := by
  induction l with
  | nil => simp
  | cons a tl ih =>
    cases hpa : p a <;> simp [List.countP_cons, hpa] <;> omega

/-- Claim C7: with a resolvable formatter, a full run keeps every raw
entry and reports the raw warning count, while an incremental run drops
exactly the entries whose first message is the well-known ignore message
and lowers the warning count by one for each dropped entry. -/
theorem c7_warning_suppression
    (gf : String → Option (List ResultItem → String))
    (fc : FormatterConfig)
    (eng : List String → Report)
    (mtch : String → String → Bool)
    (changed patterns : List String)
    (f : List ResultItem → String)
    (hf : gf fc.name = some f) :
    (runESLintOnFilesWithOptions gf fc eng mtch changed patterns false =
      .ok { output := f (eng patterns).results,
            errorCount := (eng patterns).errorCount,
            warningCount := (eng patterns).warningCount }) ∧
    (runESLintOnFilesWithOptions gf fc eng mtch changed patterns true =
      .ok { output := f ((eng (intersect mtch changed patterns)).results.filter
              (fun item => !(itemFirstIsIgnore item))),
            errorCount := (eng (intersect mtch changed patterns)).errorCount,
            warningCount :=
              (eng (intersect mtch changed patterns)).warningCount -
                ((eng (intersect mtch changed patterns)).results.countP
                  (fun item => itemFirstIsIgnore item) : Int) }) := by
  constructor
  · unfold runESLintOnFilesWithOptions
    rw [hf]
    simp
  · unfold runESLintOnFilesWithOptions
    rw [hf]
    simp only [Bool.not_true, Bool.false_eq_true, if_false, if_true,
      Except.ok.injEq, ESLintResult.mk.injEq]
    refine ⟨trivial, trivial, ?_⟩
    have hc := countP_not_add_countP itemFirstIsIgnore
      (eng (intersect mtch changed patterns)).results
    have hl : ((eng (intersect mtch changed patterns)).results.filter
        (fun item => !(itemFirstIsIgnore item))).length =
        (eng (intersect mtch changed patterns)).results.countP
          (fun item => !(itemFirstIsIgnore item)) :=
      (List.countP_eq_length_filter _ _).symm
    rw [hl]
    push_cast [← hc]
    ring

/-- Concrete formatter rendering the number of kept entries, for the
claim C7 witness. -/
def wFormatter : List ResultItem → String := fun items => toString items.length

/-- Concrete engine producing one ignored entry and one kept entry, for
the claim C7 witness. -/
def wEngine : List String → Report := fun _ =>
  { results := [{ messages := [{ message := ignoreMessage }] },
                { messages := [] }],
    errorCount := 1, warningCount := 2 }

/-- Claim C7 witness: the suppression statement at a concrete engine with
one ignored entry and one kept entry. -/
theorem c7_warning_suppression_witness :
    (runESLintOnFilesWithOptions (fun _ => some wFormatter)
        { name := "stylish", outputFile := "" } wEngine (fun _ _ => true)
        [] ["**/*.js"] false =
      .ok { output := wFormatter (wEngine ["**/*.js"]).results,
            errorCount := (wEngine ["**/*.js"]).errorCount,
            warningCount := (wEngine ["**/*.js"]).warningCount }) ∧
    (runESLintOnFilesWithOptions (fun _ => some wFormatter)
        { name := "stylish", outputFile := "" } wEngine (fun _ _ => true)
        [] ["**/*.js"] true =
      .ok { output := wFormatter
              ((wEngine (intersect (fun _ _ => true) [] ["**/*.js"])).results.filter
                (fun item => !(itemFirstIsIgnore item))),
            errorCount :=
              (wEngine (intersect (fun _ _ => true) [] ["**/*.js"])).errorCount,
            warningCount :=
              (wEngine (intersect (fun _ _ => true) [] ["**/*.js"])).warningCount -
                ((wEngine (intersect (fun _ _ => true) [] ["**/*.js"])).results.countP
                  (fun item => itemFirstIsIgnore item) : Int) }) :=
  c7_warning_suppression (fun _ => some wFormatter)
    { name := "stylish", outputFile := "" } wEngine (fun _ _ => true)
    [] ["**/*.js"] wFormatter rfl

/-- Accumulating appends through a fold is appending the flattened map. -/
theorem foldl_append_eq_flatten (patterns : List String)
    (g : String → List String) :
    ∀ init : List String,
      patterns.foldl (fun acc p => acc ++ g p) init =
        init ++ (patterns.map g).flatten := by
  induction patterns with
  | nil => intro init; simp
  | cons p tl ih =>
    intro init
    simp only [List.foldl_cons, List.map_cons, List.flatten_cons]
    rw [ih]
    simp [List.append_assoc]

/-- Deduplication only keeps members of its input. -/
theorem mem_of_mem_jsSetDedup (l : List String) (x : String)
    (h : x ∈ jsSetDedup l) : x ∈ l := by
  induction l using jsSetDedup.induct with
  | case1 => simp [jsSetDedup] at h
  | case2 y tl ih =>
    rw [jsSetDedup] at h
    rcases List.mem_cons.mp h with rfl | hmem
    · simp
    · exact List.mem_cons_of_mem _ (List.mem_of_mem_filter (ih hmem))

/-- Deduplication yields a list without duplicates. -/
theorem jsSetDedup_nodup (l : List String) : (jsSetDedup l).Nodup := by
  induction l using jsSetDedup.induct with
  | case1 => simp [jsSetDedup]
  | case2 y tl ih =>
    rw [jsSetDedup]
    refine List.nodup_cons.mpr ⟨?_, ih⟩
    intro hmem
    have := mem_of_mem_jsSetDedup _ _ hmem
    simp at this

/-- Claim C8: intersect equals the deduplication of the union over the
patterns of the files matched by minimatch; an empty file list or an
empty pattern list yields the empty result, and the result never holds
duplicates. -/
theorem c8_intersect (mtch : String → String → Bool)
    (files patterns : List String) :
    intersect mtch files patterns =
      jsSetDedup
        ((patterns.map (fun p => files.filter (fun f => mtch p f))).flatten) ∧
    (files = [] → intersect mtch files patterns = []) ∧
    (patterns = [] → intersect mtch files patterns = []) ∧
    (intersect mtch files patterns).Nodup := by
  have hmain : intersect mtch files patterns =
      jsSetDedup
        ((patterns.map (fun p => files.filter (fun f => mtch p f))).flatten) := by
    unfold intersect
    rw [foldl_append_eq_flatten]
    simp
  refine ⟨hmain, ?_, ?_, ?_⟩
  · rintro rfl
    rw [hmain]
    simp only [List.filter_nil]
    have : (patterns.map fun p => ([] : List String)).flatten = [] := by
      induction patterns with
      | nil => simp
      | cons q tl ih => simpa using ih
    rw [this]
    rw [jsSetDedup]
  · rintro rfl
    rw [hmain]
    simp only [List.map_nil, List.flatten_nil]
    rw [jsSetDedup]
  · rw [hmain]
    exact jsSetDedup_nodup _

/-- Claim C8 witness: the characterization at a concrete suffix matcher,
together with the two empty cases. -/
theorem c8_intersect_witness :
    intersect (fun p f => jsEndsWith f p) ["a.js", "b.js", "c.es.js"]
        [".es.js"] =
      jsSetDedup
        (([".es.js"].map (fun p =>
          ["a.js", "b.js", "c.es.js"].filter
            (fun f => jsEndsWith f p))).flatten) ∧
    (["a.js", "b.js", "c.es.js"] = ([] : List String) →
      intersect (fun p f => jsEndsWith f p) ["a.js", "b.js", "c.es.js"]
        [".es.js"] = []) ∧
    ((".es.js" :: []) = ([] : List String) →
      intersect (fun p f => jsEndsWith f p) ["a.js", "b.js", "c.es.js"]
        [".es.js"] = []) ∧
    (intersect (fun p f => jsEndsWith f p) ["a.js", "b.js", "c.es.js"]
        [".es.js"]).Nodup :=
  c8_intersect (fun p f => jsEndsWith f p) ["a.js", "b.js", "c.es.js"]
    [".es.js"]

/-- With a resolvable formatter a bucket run always succeeds. -/
theorem runESLintOnFilesWithOptions_ok
    (gf : String → Option (List ResultItem → String))
    (fc : FormatterConfig) (eng : List String → Report)
    (mtch : String → String → Bool) (changed patterns : List String)
    (onlyChanged : Bool) (f : List ResultItem → String)
    (hf : gf fc.name = some f) :
    ∃ r, runESLintOnFilesWithOptions gf fc eng mtch changed patterns
      onlyChanged = .ok r := by
  unfold runESLintOnFilesWithOptions
  rw [hf]
  exact ⟨_, rfl⟩

/-- Concrete engine for the claim C5 scenario: one error in the default
bucket, two warnings in the next-generation bucket, a clean legacy
bucket. -/
def bucketEngine : LintOptions → List String → Report := fun opts _ =>
  if opts.configFile = "scripts/eslint/eslintrc.default.js" then
    { results := [], errorCount := 1, warningCount := 0 }
  else if opts.configFile = "scripts/eslint/eslintrc.esnext.js" then
    { results := [], errorCount := 0, warningCount := 2 }
  else { results := [], errorCount := 0, warningCount := 0 }

/-- Claim C5: runESLint runs the default bucket (ignoring the es5 and
esNext path sets), the next-generation bucket and the legacy bucket in
this order, concatenates their outputs in that order, and returns true
exactly when both the summed error count and the summed warning count are
zero; the scenario with bucket counts one error, two warnings and a clean
bucket yields overall false with totals one and two. -/
theorem c5_run_eslint
    (gf : String → Option (List ResultItem → String))
    (fc : FormatterConfig) (engine : LintOptions → List String → Report)
    (mtch : String → String → Bool)
    (changed es5Paths esNextPaths : List String) (dirname : String)
    (onlyChanged : Bool) (f : List ResultItem → String)
    (hf : gf fc.name = some f) :
    (∃ r1 r2 r3,
      runESLintOnFilesWithOptions gf fc
          (engine { configFile := dirname ++ "/eslintrc.default.js",
                    ignorePattern := es5Paths ++ esNextPaths })
          mtch changed allPaths onlyChanged = .ok r1 ∧
      runESLintOnFilesWithOptions gf fc
          (engine { configFile := dirname ++ "/eslintrc.esnext.js",
                    ignorePattern := [] })
          mtch changed esNextPaths onlyChanged = .ok r2 ∧
      runESLintOnFilesWithOptions gf fc
          (engine { configFile := dirname ++ "/eslintrc.es5.js",
                    ignorePattern := [] })
          mtch changed es5Paths onlyChanged = .ok r3 ∧
      runESLint gf fc engine mtch changed es5Paths esNextPaths dirname
          onlyChanged =
        .ok ((r1.errorCount + r2.errorCount + r3.errorCount == 0 &&
              r1.warningCount + r2.warningCount + r3.warningCount == 0),
             r1.output ++ r2.output ++ r3.output) ∧
      ((r1.errorCount + r2.errorCount + r3.errorCount == 0 &&
        r1.warningCount + r2.warningCount + r3.warningCount == 0) = true ↔
        (r1.errorCount + r2.errorCount + r3.errorCount = 0 ∧
         r1.warningCount + r2.warningCount + r3.warningCount = 0))) ∧
    (runESLintOnFilesWithOptions (fun _ => some (fun _ => ""))
        { name := "stylish", outputFile := "" }
        (bucketEngine { configFile := "scripts/eslint/eslintrc.default.js",
                        ignorePattern := [] })
        (fun _ _ => true) [] allPaths false =
      .ok { output := "", errorCount := 1, warningCount := 0 } ∧
    runESLintOnFilesWithOptions (fun _ => some (fun _ => ""))
        { name := "stylish", outputFile := "" }
        (bucketEngine { configFile := "scripts/eslint/eslintrc.esnext.js",
                        ignorePattern := [] })
        (fun _ _ => true) [] [] false =
      .ok { output := "", errorCount := 0, warningCount := 2 } ∧
    runESLintOnFilesWithOptions (fun _ => some (fun _ => ""))
        { name := "stylish", outputFile := "" }
        (bucketEngine { configFile := "scripts/eslint/eslintrc.es5.js",
                        ignorePattern := [] })
        (fun _ _ => true) [] [] false =
      .ok { output := "", errorCount := 0, warningCount := 0 } ∧
    ((1 : Int) + 0 + 0 = 1 ∧ (0 : Int) + 2 + 0 = 2) ∧
    runESLint (fun _ => some (fun _ => ""))
        { name := "stylish", outputFile := "" } bucketEngine
        (fun _ _ => true) [] [] [] "scripts/eslint" false =
      .ok (false, "")) := by
  constructor
  · obtain ⟨r1, h1⟩ := runESLintOnFilesWithOptions_ok gf fc
      (engine { configFile := dirname ++ "/eslintrc.default.js",
                ignorePattern := es5Paths ++ esNextPaths })
      mtch changed allPaths onlyChanged f hf
    obtain ⟨r2, h2⟩ := runESLintOnFilesWithOptions_ok gf fc
      (engine { configFile := dirname ++ "/eslintrc.esnext.js",
                ignorePattern := [] })
      mtch changed esNextPaths onlyChanged f hf
    obtain ⟨r3, h3⟩ := runESLintOnFilesWithOptions_ok gf fc
      (engine { configFile := dirname ++ "/eslintrc.es5.js",
                ignorePattern := [] })
      mtch changed es5Paths onlyChanged f hf
    refine ⟨r1, r2, r3, h1, h2, h3, ?_, by simp⟩
    unfold runESLint
    rw [h1, h2, h3]
    rfl
  · exact ⟨rfl, rfl, rfl, by norm_num, rfl⟩

/-- Claim C5 witness: the orchestration statement at the concrete scenario
engine. -/
theorem c5_run_eslint_witness :
    (∃ r1 r2 r3,
      runESLintOnFilesWithOptions (fun _ => some (fun _ => ""))
          { name := "stylish", outputFile := "" }
          (bucketEngine
            { configFile := "scripts/eslint" ++ "/eslintrc.default.js",
              ignorePattern := ([] : List String) ++ [] })
          (fun _ _ => true) [] allPaths false = .ok r1 ∧
      runESLintOnFilesWithOptions (fun _ => some (fun _ => ""))
          { name := "stylish", outputFile := "" }
          (bucketEngine
            { configFile := "scripts/eslint" ++ "/eslintrc.esnext.js",
              ignorePattern := [] })
          (fun _ _ => true) [] [] false = .ok r2 ∧
      runESLintOnFilesWithOptions (fun _ => some (fun _ => ""))
          { name := "stylish", outputFile := "" }
          (bucketEngine
            { configFile := "scripts/eslint" ++ "/eslintrc.es5.js",
              ignorePattern := [] })
          (fun _ _ => true) [] [] false = .ok r3 ∧
      runESLint (fun _ => some (fun _ => ""))
          { name := "stylish", outputFile := "" } bucketEngine
          (fun _ _ => true) [] [] [] "scripts/eslint" false =
        .ok ((r1.errorCount + r2.errorCount + r3.errorCount == 0 &&
              r1.warningCount + r2.warningCount + r3.warningCount == 0),
             r1.output ++ r2.output ++ r3.output) ∧
      ((r1.errorCount + r2.errorCount + r3.errorCount == 0 &&
        r1.warningCount + r2.warningCount + r3.warningCount == 0) = true ↔
        (r1.errorCount + r2.errorCount + r3.errorCount = 0 ∧
         r1.warningCount + r2.warningCount + r3.warningCount = 0))) ∧
    (runESLintOnFilesWithOptions (fun _ => some (fun _ => ""))
        { name := "stylish", outputFile := "" }
        (bucketEngine { configFile := "scripts/eslint/eslintrc.default.js",
                        ignorePattern := [] })
        (fun _ _ => true) [] allPaths false =
      .ok { output := "", errorCount := 1, warningCount := 0 } ∧
    runESLintOnFilesWithOptions (fun _ => some (fun _ => ""))
        { name := "stylish", outputFile := "" }
        (bucketEngine { configFile := "scripts/eslint/eslintrc.esnext.js",
                        ignorePattern := [] })
        (fun _ _ => true) [] [] false =
      .ok { output := "", errorCount := 0, warningCount := 2 } ∧
    runESLintOnFilesWithOptions (fun _ => some (fun _ => ""))
        { name := "stylish", outputFile := "" }
        (bucketEngine { configFile := "scripts/eslint/eslintrc.es5.js",
                        ignorePattern := [] })
        (fun _ _ => true) [] [] false =
      .ok { output := "", errorCount := 0, warningCount := 0 } ∧
    ((1 : Int) + 0 + 0 = 1 ∧ (0 : Int) + 2 + 0 = 2) ∧
    runESLint (fun _ => some (fun _ => ""))
        { name := "stylish", outputFile := "" } bucketEngine
        (fun _ _ => true) [] [] [] "scripts/eslint" false =
      .ok (false, "")) :=
  c5_run_eslint (fun _ => some (fun _ => ""))
    { name := "stylish", outputFile := "" } bucketEngine (fun _ _ => true)
    [] [] [] "scripts/eslint" false (fun _ => "") rfl

/-- Splitting prepends a separator-free stretch to the first field. -/
theorem splitOnCharL_append_noSep (sep : Char) (s : List Char)
    (hs : ∀ c ∈ s, c ≠ sep) :
    ∀ (r : List Char) (h : List Char) (t : List (List Char)),
      splitOnCharL sep r = h :: t →
      splitOnCharL sep (s ++ r) = (s ++ h) :: t := by
  induction s with
  | nil => intro r h t hr; simpa using hr
  | cons c s' ih =>
    intro r h t hr
    have hc : c ≠ sep := hs c (by simp)
    have hs' : ∀ x ∈ s', x ≠ sep := fun x hx => hs x (by simp [hx])
    have hrec := ih hs' r h t hr
    simp only [List.cons_append, splitOnCharL, if_neg hc, List.append_eq]
    rw [hrec]

/-- A string free of dots followed by the xml extension splits into the
stem and the xml tail, and the splice-and-flatten of the multi-file name
helper therefore inserts the index right before the extension. -/
theorem getFileNameWithIndex_stem (stem : String) (i : Nat)
    (hs : ∀ c ∈ stem.data, c ≠ '.') :
    getFileNameWithIndex (stem ++ ".xml") i = stem ++ toString i ++ ".xml" := by
  unfold getFileNameWithIndex
  have hsplit : splitOnCharL '.' (stem ++ ".xml").data =
      (stem.data ++ []) :: [['x', 'm', 'l']] := by
    rw [String.data_append]
    exact splitOnCharL_append_noSep '.' stem.data hs (".xml" : String).data
      [] [['x', 'm', 'l']] (by decide)
  rw [hsplit]
  refine String.ext ?_
  show (stem.data ++ []) ++ ((toString i).data ++ (['.'] ++ (['x', 'm', 'l'] ++ []))) =
    (stem ++ toString i ++ ".xml").data
  simp only [String.data_append, List.append_nil, List.append_assoc]
  rfl

/-- Claim C10 (amended): on base names made of a dot-free stem followed by
the xml extension, the two report-naming implementations agree; on stems
containing further dots they diverge. -/
theorem hasSub_dotxml_of_no_dot (l : List Char)
    (h : ∀ c ∈ l, c ≠ '.') : hasSub (".xml" : String).data l = false := by
  induction l with
  | nil => decide
  | cons c tl ih =>
    have hc : ('.' == c) = false := by
      simp only [beq_eq_false_iff_ne, ne_eq]
      exact fun hh => (h c (by simp)) hh.symm
    have htl : ∀ x ∈ tl, x ≠ '.' := fun x hx => h x (by simp [hx])
    simp only [hasSub, Bool.or_eq_false_iff]
    exact ⟨by simp [List.isPrefixOf, hc], ih htl⟩

/-- Claim C10 (amended): on base names made of a dot-free stem followed by
the xml extension, the two report-naming implementations agree; on stems
containing further dots they diverge. -/
theorem c10_report_names_agree (stem : String) (i : Nat)
    (hs : ∀ c ∈ stem.data, c ≠ '.') :
    getPartialJUnitReportFileName (stem ++ ".xml") i =
      .ok (getFileNameWithIndex (stem ++ ".xml") i) := by
  have hsub : hasSub (".xml" : String).data stem.data = false :=
    hasSub_dotxml_of_no_dot stem.data hs
  rw [getFileNameWithIndex_stem stem i hs]
  exact getPartial_stem stem i hsub

/-- Claim C10 counterexample: on the base name a.b.xml with index two the
shared reporting helper returns a.b2.xml while the multi-file lint helper
returns a2.bxml, so the two implementations disagree on a name ending in
the xml extension. -/
theorem c10_counterexample :
    getPartialJUnitReportFileName "a.b.xml" 2 = .ok "a.b2.xml" ∧
    getFileNameWithIndex "a.b.xml" 2 = "a2.bxml" ∧
    getPartialJUnitReportFileName "a.b.xml" 2 ≠
      .ok (getFileNameWithIndex "a.b.xml" 2) := by
  refine ⟨by rfl, by rfl, ?_⟩
  intro h
  have e1 : getPartialJUnitReportFileName "a.b.xml" 2 = .ok "a.b2.xml" := rfl
  have e2 : getFileNameWithIndex "a.b.xml" 2 = "a2.bxml" := rfl
  rw [e1, e2] at h
  exact absurd (Except.ok.inj h) (by decide)

/-- Claim C10 witness: both implementations yield base2.xml on the base
name base.xml with index two. -/
theorem c10_report_names_agree_witness :
    getPartialJUnitReportFileName ("base" ++ ".xml") 2 =
      .ok (getFileNameWithIndex ("base" ++ ".xml") 2) :=
  c10_report_names_agree "base" 2 (by decide)
